import Mathlib

/-!
# Qawale (C implementation): shallow embedding of `src/c/Simulation.c`

The program samples a monotonic clock, reduces the reading to the millisecond
within the current second (`get_cpu_frequency`), dispatches that value against
five constants (`process_frequency`) acting on one global `int64_t memory`,
and repeats this a fixed number of times (`run_program`, `main`).

Modelling conventions

* C integers are mathematical integers together with explicit wrap-around
  conversions: `toUInt64` / `% 2 ^ 64` for `uint64_t`, `wrapInt64` for
  `int64_t`, `wrapInt32` for `int`.  ISO C leaves signed overflow undefined;
  the embedding takes the two's-complement result that the supported targets
  (macOS and Linux, 64 bit) produce.
* The clock is an input: `get_cpu_frequency` takes the `uint64_t` reading
  `nanoseconds`, and `run_program` takes the stream of successive readings.
* The global `memory` is passed explicitly; `printf` calls are recorded as the
  list of strings they write.
-/

namespace Qawale

/-! ## Constants (`#define`s of the source) -/

/-- The constant `START_FREQ` of the source. -/
def START_FREQ : Int := 200

/-- The constant `PRINT_FREQ` of the source. -/
def PRINT_FREQ : Int := 400

/-- The constant `ADD_FREQ` of the source. -/
def ADD_FREQ : Int := 600

/-- The constant `SUBTRACT_FREQ` of the source. -/
def SUBTRACT_FREQ : Int := 800

/-- The constant `END_FREQ` of the source. -/
def END_FREQ : Int := 1000

/-- The constant `ONE_BILLION` (`1000000000LL`) of the source. -/
def ONE_BILLION : Int := 1000000000

/-- The constant `ONE_MILLION` (`1000000LL`) of the source. -/
def ONE_MILLION : Int := 1000000

/-! ## Machine integers -/

/-- Smallest `int64_t`. -/
def INT64_MIN : Int := -9223372036854775808

/-- Largest `int64_t`. -/
def INT64_MAX : Int := 9223372036854775807

/-- Largest `int`, the type of `iterations` and of the loop counter. -/
def INT_MAX : Int := 2147483647

/-- Conversion of an integer value to `uint64_t`: reduction modulo `2 ^ 64`. -/
@[irreducible]
def toUInt64 (x : Int) : Nat := (x % 18446744073709551616).toNat

/-- Conversion of an integer value to `int64_t` (two's complement). -/
@[irreducible]
def wrapInt64 (x : Int) : Int :=
  (x + 9223372036854775808) % 18446744073709551616 - 9223372036854775808

/-- Conversion of an integer value to `int` (32 bit, two's complement). -/
@[irreducible]
def wrapInt32 (x : Int) : Int := (x + 2147483648) % 4294967296 - 2147483648

/-- The values an `int64_t` can hold. -/
def isInt64 (x : Int) : Prop := INT64_MIN ≤ x ∧ x ≤ INT64_MAX

instance (x : Int) : Decidable (isInt64 x) := by
  unfold isInt64; exact inferInstance

/-! ## `get_cpu_frequency` -/

/-- The Linux branch of `get_cpu_frequency`, line 73:
`(uint64_t)ts.tv_sec * ONE_BILLION + (uint64_t)ts.tv_nsec`, computed in
`uint64_t`. -/
def linux_nanoseconds (tv_sec tv_nsec : Int) : Nat :=
  ((toUInt64 tv_sec * toUInt64 ONE_BILLION) % 18446744073709551616
    + toUInt64 tv_nsec) % 18446744073709551616

/-- Lines 76-82 of `get_cpu_frequency`, as a function of the `uint64_t` clock
reading `nanoseconds`.  The remainder is taken in `uint64_t` (the `long long`
constant is converted), stored in the `int64_t` `last_second`; the quotient is
the truncating signed division, cast to `int`. -/
def get_cpu_frequency (nanoseconds : Nat) : Int :=
  let last_second : Int := wrapInt64 ((nanoseconds % toUInt64 ONE_BILLION : Nat) : Int)
  let milliseconds : Int := wrapInt32 (Int.tdiv last_second ONE_MILLION)
  milliseconds

/-- The function `get_cpu_frequency` on Linux: the reading comes from the
`timespec` filled in by `clock_gettime`. -/
def get_cpu_frequency_linux (tv_sec tv_nsec : Int) : Int :=
  get_cpu_frequency (linux_nanoseconds tv_sec tv_nsec)

/-! ## `process_frequency` -/

/-- What one call of `process_frequency` leaves behind: the new value of the
global `memory` and the strings written by `printf`, in order. -/
structure Result where
  memory : Int
  printed : List String
  deriving DecidableEq

/-- The function `process_frequency` of the source; `memory` is the value of
the global on entry.  `%lld` prints the decimal numeral of its argument. -/
def process_frequency (freq : Int) (memory : Int) : Result :=
  if freq = START_FREQ then
    { memory := memory, printed := ["Program started...\n"] }
  else if freq = PRINT_FREQ then
    { memory := memory, printed := ["Memory: " ++ toString memory ++ "\n"] }
  else if freq = ADD_FREQ then
    let memory := wrapInt64 (memory + 10)
    { memory := memory,
      printed := ["Added 10. New memory value: " ++ toString memory ++ "\n"] }
  else if freq = SUBTRACT_FREQ then
    let memory := wrapInt64 (memory - 5)
    { memory := memory,
      printed := ["Subtracted 5. New memory value: " ++ toString memory ++ "\n"] }
  else if freq = END_FREQ then
    { memory := memory, printed := ["Program ended.\n"] }
  else
    { memory := memory, printed := [] }

/-- A sequence of frequency samples processed in order by `process_frequency`,
starting from `memory`: the final memory and everything printed. -/
def process_all : List Int → Int → Result
  | [], memory => { memory := memory, printed := [] }
  | freq :: rest, memory =>
    let first := process_frequency freq memory
    let others := process_all rest first.memory
    { memory := others.memory, printed := first.printed ++ others.printed }

/-! ## `run_program` and `main` -/

/-- Program state: the global `memory`, the text written to standard output,
the number of clock readings taken and the number of one-second sleeps. -/
structure State where
  memory : Int
  stdout : List String
  reads : Nat
  slept : Nat
  deriving DecidableEq

/-- State at program start: `static int64_t memory = 0`, nothing printed. -/
def State.initial : State := { memory := 0, stdout := [], reads := 0, slept := 0 }

/-- Body of the loop of `run_program`: sample, dispatch, sleep.  The function
`clock` gives the successive `uint64_t` readings. -/
def loop_body (clock : Nat → Nat) (s : State) : State :=
  let cpu_freq := get_cpu_frequency (clock s.reads)
  let r := process_frequency cpu_freq s.memory
  { memory := r.memory, stdout := s.stdout ++ r.printed,
    reads := s.reads + 1, slept := s.slept + 1 }

/-- The loop `for (int i = ...; i < iterations; i++)` of `run_program`, entered
with counter `i`.  The counter never overflows: it is incremented only while
below `iterations`. -/
def run_loop (clock : Nat → Nat) (iterations : Int) (i : Int) (s : State) : State :=
  if i < iterations then
    run_loop clock iterations (i + 1) (loop_body clock s)
  else
    s
termination_by (iterations - i).toNat
decreasing_by omega

/-- The function `run_program` of the source. -/
def run_program (clock : Nat → Nat) (iterations : Int) (s : State) : State :=
  run_loop clock iterations 0 s

/-- The function `main` of the source: `run_program(10)` from the initial state. -/
def main (clock : Nat → Nat) : State :=
  run_program clock 10 State.initial

/-! ## Auxiliary definitions used to state the results -/

/-- State after dispatching the sample `cpu_freq` and sleeping one second, one
more clock reading having been taken: the loop body after its first line. -/
def after_dispatch (cpu_freq : Int) (s : State) : State :=
  { memory := (process_frequency cpu_freq s.memory).memory,
    stdout := s.stdout ++ (process_frequency cpu_freq s.memory).printed,
    reads := s.reads + 1, slept := s.slept + 1 }

/-- The frequencies obtained from `count` successive clock readings, the first
of them being reading number `start`. -/
def clock_frequencies (clock : Nat → Nat) (start : Nat) : Nat → List Int
  | 0 => []
  | count + 1 => get_cpu_frequency (clock start) :: clock_frequencies clock (start + 1) count

/-- Whether the samples `fs`, dispatched in order from `memory`, are processed
without signed overflow: at every add step `memory + 10`, and at every subtract
step `memory - 5`, is a value an `int64_t` can hold. -/
def no_overflow : List Int → Int → Bool
  | [], _ => true
  | freq :: rest, memory =>
    decide ((freq = ADD_FREQ → isInt64 (memory + 10))
        ∧ (freq = SUBTRACT_FREQ → isInt64 (memory - 5)))
      && no_overflow rest (process_frequency freq memory).memory

/-! ## Basic facts about the conversions -/

theorem toUInt64_ONE_BILLION : toUInt64 ONE_BILLION = 1000000000 := by
  unfold toUInt64
  decide

theorem wrapInt64_of_isInt64 {x : Int} (h : isInt64 x) : wrapInt64 x = x := by
  unfold isInt64 INT64_MIN INT64_MAX at h
  unfold wrapInt64
  omega

theorem isInt64_wrapInt64 (x : Int) : isInt64 (wrapInt64 x) := by
  unfold isInt64 INT64_MIN INT64_MAX wrapInt64
  omega

theorem wrapInt64_add_left (x y : Int) : wrapInt64 (wrapInt64 x + y) = wrapInt64 (x + y) := by
  unfold wrapInt64
  omega

theorem get_cpu_frequency_eq (nanoseconds : Nat) :
    get_cpu_frequency nanoseconds = ((nanoseconds % 1000000000 / 1000000 : Nat) : Int) := by
  unfold get_cpu_frequency
  rw [toUInt64_ONE_BILLION]
  have h1 : nanoseconds % 1000000000 < 1000000000 := Nat.mod_lt _ (by decide)
  have h2 : wrapInt64 ((nanoseconds % 1000000000 : Nat) : Int)
      = ((nanoseconds % 1000000000 : Nat) : Int) := by
    unfold wrapInt64; omega
  simp only [h2]
  rw [Int.tdiv_eq_ediv (by omega) (by decide)]
  unfold ONE_MILLION wrapInt32
  omega

/-! ## The clock reduction -/

/-- C1: for every clock reading `ns` (in particular every 64-bit unsigned one)
the value `get_cpu_frequency` computes from it is
`(ns mod 1,000,000,000) / 1,000,000`, an integer between 0 and 999. -/
theorem get_cpu_frequency_range (ns : Nat) :
    get_cpu_frequency ns = ((ns % 1000000000 / 1000000 : Nat) : Int)
      ∧ 0 ≤ get_cpu_frequency ns ∧ get_cpu_frequency ns ≤ 999 := by
  rw [get_cpu_frequency_eq]
  omega

/-- C5: `get_cpu_frequency` returns the millisecond within the current second:
its result `(ns mod 1,000,000,000) / 1,000,000` equals
`(ns / 1,000,000) mod 1000`. -/
theorem get_cpu_frequency_millisecond_of_second (ns : Nat) :
    get_cpu_frequency ns = ((ns / 1000000 % 1000 : Nat) : Int)
      ∧ ns % 1000000000 / 1000000 = ns / 1000000 % 1000 := by
  rw [get_cpu_frequency_eq]
  omega

/-- C9: in the Linux branch, for `tv_sec ≥ 0` and `0 ≤ tv_nsec < 10^9` with
`tv_sec * 10^9 + tv_nsec < 2^64`, `get_cpu_frequency` returns
`tv_nsec / 1,000,000`, whatever `tv_sec` is. -/
theorem get_cpu_frequency_linux_eq (tv_sec tv_nsec : Int)
    (hsec : 0 ≤ tv_sec) (hlo : 0 ≤ tv_nsec) (hhi : tv_nsec < 1000000000)
    (hfit : tv_sec * 1000000000 + tv_nsec < 18446744073709551616) :
    get_cpu_frequency_linux tv_sec tv_nsec = tv_nsec / 1000000
      ∧ get_cpu_frequency_linux tv_sec tv_nsec = get_cpu_frequency_linux 0 tv_nsec := by
  have key : ∀ sec : Int, 0 ≤ sec → sec * 1000000000 + tv_nsec < 18446744073709551616 →
      get_cpu_frequency_linux sec tv_nsec = tv_nsec / 1000000 := by
    intro sec h0 hf
    unfold get_cpu_frequency_linux
    rw [get_cpu_frequency_eq]
    unfold linux_nanoseconds
    rw [toUInt64_ONE_BILLION]
    unfold toUInt64
    obtain ⟨a, rfl⟩ := Int.eq_ofNat_of_zero_le h0
    obtain ⟨b, rfl⟩ := Int.eq_ofNat_of_zero_le hlo
    have ha : ((a : Int) % 18446744073709551616).toNat = a := by omega
    have hb : ((b : Int) % 18446744073709551616).toNat = b := by omega
    have hf' : a * 1000000000 + b < 18446744073709551616 := by omega
    have hb' : b < 1000000000 := by omega
    rw [ha, hb, Nat.mod_eq_of_lt (by omega : a * 1000000000 < 18446744073709551616),
      Nat.mod_eq_of_lt hf', Nat.mul_add_mod_of_lt hb']
    omega
  rw [key tv_sec hsec hfit, key 0 (le_refl 0) (by omega)]
  exact ⟨rfl, rfl⟩

/-- Witness for C9: five seconds and 123,456,789 ns after boot the sample is 123. -/
theorem get_cpu_frequency_linux_eq_witness :
    get_cpu_frequency_linux 5 123456789 = 123456789 / 1000000
      ∧ get_cpu_frequency_linux 5 123456789 = get_cpu_frequency_linux 0 123456789 :=
  get_cpu_frequency_linux_eq 5 123456789 (by decide) (by decide) (by decide) (by decide)

/-! ## The dispatch -/

/-- Memory after one dispatch, by cases on the frequency. -/
theorem process_frequency_memory (freq memory : Int) :
    (process_frequency freq memory).memory =
      if freq = 600 then wrapInt64 (memory + 10)
      else if freq = 800 then wrapInt64 (memory - 5)
      else memory := by
  unfold process_frequency START_FREQ PRINT_FREQ ADD_FREQ SUBTRACT_FREQ END_FREQ
  split_ifs <;> first | rfl | omega

/-- Counterexample to C2 as stated: with `memory = INT64_MAX`, the add line does
not show `m + 10` (which no `int64_t` can hold) but the wrapped value. -/
theorem process_frequency_add_line_at_max :
    (process_frequency 600 9223372036854775807).printed
        = ["Added 10. New memory value: -9223372036854775799\n"]
      ∧ (process_frequency 600 9223372036854775807).printed
        ≠ ["Added 10. New memory value: "
            ++ toString ((9223372036854775807 : Int) + 10) ++ "\n"] := by
  with_unfolding_all decide

/-- C2 (amended): for every `int64_t` memory value `m`, `process_frequency`
emits exactly one line per documented constant: 200 emits "Program started...",
400 emits "Memory: m", 1000 emits "Program ended."; 600 emits
"Added 10. New memory value: m+10" provided `m + 10 ≤ INT64_MAX`, and 800 emits
"Subtracted 5. New memory value: m-5" provided `INT64_MIN ≤ m - 5`. -/
theorem process_frequency_lines (m : Int) (hm : isInt64 m) :
    (process_frequency 200 m).printed = ["Program started...\n"]
      ∧ (process_frequency 400 m).printed = ["Memory: " ++ toString m ++ "\n"]
      ∧ (m + 10 ≤ INT64_MAX → (process_frequency 600 m).printed
          = ["Added 10. New memory value: " ++ toString (m + 10) ++ "\n"])
      ∧ (INT64_MIN ≤ m - 5 → (process_frequency 800 m).printed
          = ["Subtracted 5. New memory value: " ++ toString (m - 5) ++ "\n"])
      ∧ (process_frequency 1000 m).printed = ["Program ended.\n"] := by
  refine ⟨rfl, rfl, ?_, ?_, rfl⟩
  · intro h
    have hw : wrapInt64 (m + 10) = m + 10 :=
      wrapInt64_of_isInt64 ⟨by have := hm.1; unfold INT64_MIN at *; omega, h⟩
    show ["Added 10. New memory value: " ++ toString (wrapInt64 (m + 10)) ++ "\n"] = _
    rw [hw]
  · intro h
    have hw : wrapInt64 (m - 5) = m - 5 :=
      wrapInt64_of_isInt64 ⟨h, by have := hm.2; unfold INT64_MAX at *; omega⟩
    show ["Subtracted 5. New memory value: " ++ toString (wrapInt64 (m - 5)) ++ "\n"] = _
    rw [hw]

/-- Witness for C2 (amended), at `memory = 7`. -/
theorem process_frequency_lines_witness :
    isInt64 7
      ∧ (process_frequency 200 7).printed = ["Program started...\n"]
      ∧ (process_frequency 400 7).printed = ["Memory: 7\n"]
      ∧ (process_frequency 600 7).printed = ["Added 10. New memory value: 17\n"]
      ∧ (process_frequency 800 7).printed = ["Subtracted 5. New memory value: 2\n"]
      ∧ (process_frequency 1000 7).printed = ["Program ended.\n"] :=
  have h := process_frequency_lines 7 (by decide)
  ⟨by decide, h.1, h.2.1, h.2.2.1 (by decide), h.2.2.2.1 (by decide), h.2.2.2.2⟩

/-- A frequency matching none of the five constants falls through every branch. -/
theorem process_frequency_of_ne (freq m : Int)
    (h200 : freq ≠ START_FREQ) (h400 : freq ≠ PRINT_FREQ) (h600 : freq ≠ ADD_FREQ)
    (h800 : freq ≠ SUBTRACT_FREQ) (h1000 : freq ≠ END_FREQ) :
    process_frequency freq m = { memory := m, printed := [] } := by
  unfold process_frequency
  simp [h200, h400, h600, h800, h1000]

/-- C3: for every `freq` other than 200, 400, 600, 800 and 1000 (negative or
above 1000 included) and every memory value `m`, `process_frequency` emits
nothing and leaves memory equal to `m`. -/
theorem process_frequency_unrecognized (freq m : Int)
    (h200 : freq ≠ 200) (h400 : freq ≠ 400) (h600 : freq ≠ 600)
    (h800 : freq ≠ 800) (h1000 : freq ≠ 1000) :
    process_frequency freq m = { memory := m, printed := [] } :=
  process_frequency_of_ne freq m h200 h400 h600 h800 h1000

/-- Witness for C3: a negative frequency, memory 42. -/
theorem process_frequency_unrecognized_witness :
    process_frequency (-3) 42 = { memory := 42, printed := [] } :=
  process_frequency_unrecognized (-3) 42 (by decide) (by decide) (by decide)
    (by decide) (by decide)

/-- Counterexample to C4 as stated: from `memory = INT64_MAX` the add frequency
does not leave `m + 10`, and from `memory = INT64_MIN` the subtract frequency
does not leave `m - 5`: neither value is one an `int64_t` can hold. -/
theorem process_frequency_memory_at_bounds :
    isInt64 9223372036854775807 ∧ ¬ isInt64 (9223372036854775807 + 10)
      ∧ isInt64 (-9223372036854775808) ∧ ¬ isInt64 (-9223372036854775808 - 5)
      ∧ (process_frequency 600 9223372036854775807).memory ≠ 9223372036854775807 + 10
      ∧ (process_frequency 600 9223372036854775807).memory = -9223372036854775799
      ∧ (process_frequency 800 (-9223372036854775808)).memory ≠ -9223372036854775808 - 5
      ∧ (process_frequency 800 (-9223372036854775808)).memory = 9223372036854775803 := by
  with_unfolding_all decide

/-- C4 (amended): the memory register is changed only by the add and subtract
frequencies: for every `int64_t` value `m`, `process_frequency(600)` leaves
`m + 10` provided `m + 10 ≤ INT64_MAX`, `process_frequency(800)` leaves `m - 5`
provided `INT64_MIN ≤ m - 5`, and every other frequency leaves `m`. -/
theorem process_frequency_frame (m : Int) (hm : isInt64 m) :
    (m + 10 ≤ INT64_MAX → (process_frequency 600 m).memory = m + 10)
      ∧ (INT64_MIN ≤ m - 5 → (process_frequency 800 m).memory = m - 5)
      ∧ (∀ f : Int, f ≠ 600 → f ≠ 800 → (process_frequency f m).memory = m) := by
  refine ⟨?_, ?_, ?_⟩
  · intro h
    rw [process_frequency_memory, if_pos rfl]
    exact wrapInt64_of_isInt64 ⟨by have := hm.1; unfold INT64_MIN at *; omega, h⟩
  · intro h
    rw [process_frequency_memory, if_neg (by decide), if_pos rfl]
    exact wrapInt64_of_isInt64 ⟨h, by have := hm.2; unfold INT64_MAX at *; omega⟩
  · intro f h6 h8
    rw [process_frequency_memory, if_neg h6, if_neg h8]

/-- Witness for C4 (amended), at `memory = 7`. -/
theorem process_frequency_frame_witness :
    isInt64 7
      ∧ (process_frequency 600 7).memory = 7 + 10
      ∧ (process_frequency 800 7).memory = 7 - 5
      ∧ (process_frequency 200 7).memory = 7
      ∧ (process_frequency 400 7).memory = 7
      ∧ (process_frequency 1000 7).memory = 7 :=
  have h := process_frequency_frame 7 (by decide)
  ⟨by decide, h.1 (by decide), h.2.1 (by decide), h.2.2 200 (by decide) (by decide),
    h.2.2 400 (by decide) (by decide), h.2.2 1000 (by decide) (by decide)⟩

/-- A printed line starting with a character other than `P` is not the end line. -/
theorem line_ne_ended (c : Char) (cs : List Char) (t : String) (hc : c ≠ 'P') :
    String.mk (c :: cs) ++ t ≠ "Program ended.\n" := by
  intro h
  have h2 := congrArg String.data h
  rw [String.data_append] at h2
  simp at h2
  exact hc h2.1

/-- The end line is printed exactly for the end frequency. -/
theorem ended_mem_printed_iff (freq memory : Int) :
    "Program ended.\n" ∈ (process_frequency freq memory).printed ↔ freq = END_FREQ := by
  unfold process_frequency START_FREQ PRINT_FREQ ADD_FREQ SUBTRACT_FREQ END_FREQ
  split_ifs with h1 h2 h3 h4 h5
  · subst h1; simp
  · subst h2; simp [String.append_assoc]
    exact fun h => line_ne_ended 'M' _ _ (by decide) h.symm
  · subst h3; simp [String.append_assoc]
    exact fun h => line_ne_ended 'A' _ _ (by decide) h.symm
  · subst h4; simp [String.append_assoc]
    exact fun h => line_ne_ended 'S' _ _ (by decide) h.symm
  · simp [h5]
  · simp [h5]

/-- C10: the end instruction is never triggered by a clock sample: for every
clock reading `ns` and memory value `m` the sampled frequency differs from
`END_FREQ`, dispatching it never prints "Program ended.", and the dispatch is
the start, print, add or subtract instruction or does nothing; each of these
four is reached by some 64-bit reading. -/
theorem end_unreachable_from_clock (ns : Nat) (m : Int) :
    get_cpu_frequency ns ≠ END_FREQ
      ∧ "Program ended.\n" ∉ (process_frequency (get_cpu_frequency ns) m).printed
      ∧ (get_cpu_frequency ns = START_FREQ ∨ get_cpu_frequency ns = PRINT_FREQ
          ∨ get_cpu_frequency ns = ADD_FREQ ∨ get_cpu_frequency ns = SUBTRACT_FREQ
          ∨ process_frequency (get_cpu_frequency ns) m = { memory := m, printed := [] })
      ∧ (get_cpu_frequency 200000000 = START_FREQ ∧ get_cpu_frequency 400000000 = PRINT_FREQ
          ∧ get_cpu_frequency 600000000 = ADD_FREQ
          ∧ get_cpu_frequency 800000000 = SUBTRACT_FREQ) := by
  have hne : get_cpu_frequency ns ≠ END_FREQ := by
    rw [get_cpu_frequency_eq]
    unfold END_FREQ
    omega
  refine ⟨hne, ?_, ?_, by with_unfolding_all decide⟩
  · rw [ended_mem_printed_iff]
    exact hne
  · by_cases h2 : get_cpu_frequency ns = 200
    · exact Or.inl h2
    by_cases h4 : get_cpu_frequency ns = 400
    · exact Or.inr (Or.inl h4)
    by_cases h6 : get_cpu_frequency ns = 600
    · exact Or.inr (Or.inr (Or.inl h6))
    by_cases h8 : get_cpu_frequency ns = 800
    · exact Or.inr (Or.inr (Or.inr (Or.inl h8)))
    · exact Or.inr (Or.inr (Or.inr (Or.inr
        (process_frequency_of_ne _ m h2 h4 h6 h8 hne))))

/-! ## Sequences of dispatches -/

theorem process_all_nil (m : Int) : process_all [] m = { memory := m, printed := [] } := by
  simp only [process_all]

theorem process_all_cons_memory (freq : Int) (rest : List Int) (m : Int) :
    (process_all (freq :: rest) m).memory
      = (process_all rest (process_frequency freq m).memory).memory := by
  simp only [process_all]

theorem process_all_cons_printed (freq : Int) (rest : List Int) (m : Int) :
    (process_all (freq :: rest) m).printed
      = (process_frequency freq m).printed
          ++ (process_all rest (process_frequency freq m).memory).printed := by
  simp only [process_all]

/-- Add and subtract samples together are at most all samples. -/
theorem count_add_count_le (fs : List Int) :
    fs.count 600 + fs.count 800 ≤ fs.length := by
  induction fs with
  | nil => simp
  | cons f rest ih =>
    rw [List.count_cons, List.count_cons, List.length_cons]
    by_cases h6 : f = 600
    · subst h6; simp; omega
    · by_cases h8 : f = 800
      · subst h8; simp; omega
      · simp [h6, h8]; omega

/-- Final memory after a sequence of dispatches: the `int64_t` image of the
initial value plus ten per add sample minus five per subtract sample. -/
theorem process_all_memory_eq (fs : List Int) :
    ∀ m : Int, isInt64 m →
      (process_all fs m).memory
        = wrapInt64 (m + 10 * (fs.count 600 : Nat) - 5 * (fs.count 800 : Nat)) := by
  induction fs with
  | nil =>
    intro m hm
    rw [process_all_nil]
    simp only [List.count_nil, Nat.cast_zero, mul_zero, add_zero, sub_zero]
    exact (wrapInt64_of_isInt64 hm).symm
  | cons f rest ih =>
    intro m hm
    rw [process_all_cons_memory, process_frequency_memory]
    by_cases h6 : f = 600
    · subst h6
      rw [if_pos rfl, ih _ (isInt64_wrapInt64 _), List.count_cons_self,
        List.count_cons_of_ne (by decide)]
      unfold wrapInt64
      push_cast
      omega
    · by_cases h8 : f = 800
      · subst h8
        rw [if_neg (by decide), if_pos rfl, ih _ (isInt64_wrapInt64 _),
          List.count_cons_self, List.count_cons_of_ne (by decide)]
        unfold wrapInt64
        push_cast
        omega
      · rw [if_neg h6, if_neg h8, ih _ hm, List.count_cons_of_ne (Ne.symm h6),
          List.count_cons_of_ne (Ne.symm h8)]

/-- When the number of samples times ten fits an `int64_t`, the final memory
from zero is the exact sum and lies between `-5 n` and `10 n`. -/
theorem process_all_zero_exact (fs : List Int)
    (hn : 10 * (fs.length : Int) ≤ INT64_MAX) :
    (process_all fs 0).memory = 10 * (fs.count 600 : Nat) - 5 * (fs.count 800 : Nat)
      ∧ -5 * (fs.length : Int) ≤ (process_all fs 0).memory
      ∧ (process_all fs 0).memory ≤ 10 * (fs.length : Int) := by
  have hc := count_add_count_le fs
  have h0 : isInt64 0 := by decide
  rw [process_all_memory_eq fs 0 h0]
  unfold INT64_MAX at hn
  have hw : wrapInt64 (0 + 10 * (fs.count 600 : Nat) - 5 * (fs.count 800 : Nat))
      = 10 * (fs.count 600 : Nat) - 5 * (fs.count 800 : Nat) := by
    unfold wrapInt64
    omega
  rw [hw]
  omega

/-! ## The loop -/

/-- The list `clock_frequencies clock start count` has `count` entries. -/
theorem length_clock_frequencies (clock : Nat → Nat) :
    ∀ (count start : Nat), (clock_frequencies clock start count).length = count := by
  intro count
  induction count with
  | zero => intro start; rfl
  | succ count ih =>
    intro start
    rw [clock_frequencies, List.length_cons, ih]

/-- Entry `j` of `clock_frequencies clock start count` is the frequency of
reading number `start + j`. -/
theorem clock_frequencies_getElem? (clock : Nat → Nat) :
    ∀ (count start j : Nat), j < count →
      (clock_frequencies clock start count)[j]? = some (get_cpu_frequency (clock (start + j))) := by
  intro count
  induction count with
  | zero => intro start j h; omega
  | succ count ih =>
    intro start j h
    rw [clock_frequencies]
    cases j with
    | zero => rw [List.getElem?_cons_zero, Nat.add_zero]
    | succ j =>
      rw [List.getElem?_cons_succ, ih (start + 1) j (by omega)]
      rw [show start + 1 + j = start + (j + 1) by omega]

/-- The loop entered with counter `i` runs the body `iterations - i` times
(no times when `iterations ≤ i`). -/
theorem run_loop_eq_iterate (clock : Nat → Nat) (iterations : Int) :
    ∀ (k : Nat) (i : Int) (s : State), (iterations - i).toNat = k →
      run_loop clock iterations i s = (loop_body clock)^[k] s := by
  intro k
  induction k with
  | zero =>
    intro i s h
    rw [run_loop, if_neg (by omega)]
    rfl
  | succ k ih =>
    intro i s h
    rw [run_loop, if_pos (by omega), ih (i + 1) _ (by omega), Function.iterate_succ_apply]

/-- The loop body dispatches the frequency of the next clock reading. -/
theorem loop_body_eq (clock : Nat → Nat) (s : State) :
    loop_body clock s = after_dispatch (get_cpu_frequency (clock s.reads)) s := rfl

theorem after_dispatch_reads (f : Int) (s : State) :
    (after_dispatch f s).reads = s.reads + 1 := rfl

theorem after_dispatch_slept (f : Int) (s : State) :
    (after_dispatch f s).slept = s.slept + 1 := rfl

theorem after_dispatch_memory (f : Int) (s : State) :
    (after_dispatch f s).memory = (process_frequency f s.memory).memory := rfl

theorem after_dispatch_stdout (f : Int) (s : State) :
    (after_dispatch f s).stdout = s.stdout ++ (process_frequency f s.memory).printed := rfl

/-- Effect of `k` runs of the loop body: `k` readings and `k` sleeps, and the
frequencies of these readings dispatched in order. -/
theorem iterate_loop_body (clock : Nat → Nat) :
    ∀ (k : Nat) (s : State),
      ((loop_body clock)^[k] s).reads = s.reads + k
        ∧ ((loop_body clock)^[k] s).slept = s.slept + k
        ∧ ((loop_body clock)^[k] s).memory
            = (process_all (clock_frequencies clock s.reads k) s.memory).memory
        ∧ ((loop_body clock)^[k] s).stdout
            = s.stdout ++ (process_all (clock_frequencies clock s.reads k) s.memory).printed := by
  intro k
  induction k with
  | zero =>
    intro s
    rw [Function.iterate_zero_apply, clock_frequencies, process_all_nil]
    exact ⟨rfl, rfl, rfl, (List.append_nil _).symm⟩
  | succ k ih =>
    intro s
    obtain ⟨h1, h2, h3, h4⟩ := ih (loop_body clock s)
    have e1 : (loop_body clock s).reads = s.reads + 1 := by
      rw [loop_body_eq, after_dispatch_reads]
    have e2 : (loop_body clock s).slept = s.slept + 1 := by
      rw [loop_body_eq, after_dispatch_slept]
    have e3 : (loop_body clock s).memory
        = (process_frequency (get_cpu_frequency (clock s.reads)) s.memory).memory := by
      rw [loop_body_eq, after_dispatch_memory]
    have e4 : (loop_body clock s).stdout
        = s.stdout ++ (process_frequency (get_cpu_frequency (clock s.reads)) s.memory).printed := by
      rw [loop_body_eq, after_dispatch_stdout]
    rw [e1] at h1
    rw [e2] at h2
    rw [e1, e3] at h3
    rw [e1, e3, e4, List.append_assoc] at h4
    rw [Function.iterate_succ_apply, clock_frequencies, process_all_cons_memory,
      process_all_cons_printed]
    refine ⟨?_, ?_, h3, h4⟩
    · rw [h1]; omega
    · rw [h2]; omega

/-- C6: `run_program(n)` performs exactly `max(n, 0)` sample-then-dispatch steps
and stops: it takes the next `max(n, 0)` clock readings in order, dispatching
the frequency of each; for `n ≤ 0` it performs no step, prints nothing and
leaves memory unchanged; `main` performs exactly 10 steps. -/
theorem run_program_steps (clock : Nat → Nat) (n : Int) (s : State) :
    ((n.toNat : Int) = max n 0)
      ∧ run_program clock n s = (loop_body clock)^[n.toNat] s
      ∧ (run_program clock n s).reads = s.reads + n.toNat
      ∧ (run_program clock n s).slept = s.slept + n.toNat
      ∧ (run_program clock n s).memory
          = (process_all (clock_frequencies clock s.reads n.toNat) s.memory).memory
      ∧ (run_program clock n s).stdout
          = s.stdout ++ (process_all (clock_frequencies clock s.reads n.toNat) s.memory).printed
      ∧ (n ≤ 0 → run_program clock n s = s)
      ∧ main clock = (loop_body clock)^[10] State.initial
      ∧ (main clock).reads = 10 := by
  have hrun : ∀ (m : Int) (t : State),
      run_program clock m t = (loop_body clock)^[m.toNat] t := by
    intro m t
    unfold run_program
    exact run_loop_eq_iterate clock m m.toNat 0 t (by simp)
  have hmain : main clock = (loop_body clock)^[10] State.initial := by
    unfold main
    rw [hrun, show (10 : Int).toNat = 10 from rfl]
  refine ⟨by omega, hrun n s, ?_, ?_, ?_, ?_, ?_, hmain, ?_⟩
  · rw [hrun]; exact (iterate_loop_body clock _ s).1
  · rw [hrun]; exact (iterate_loop_body clock _ s).2.1
  · rw [hrun]; exact (iterate_loop_body clock _ s).2.2.1
  · rw [hrun]; exact (iterate_loop_body clock _ s).2.2.2
  · intro h
    rw [hrun, Int.toNat_of_nonpos h]
    rfl
  · rw [hmain, (iterate_loop_body clock 10 State.initial).1]
    rfl

/-- Witness for C6: a negative iteration count leaves the state alone. -/
theorem run_program_steps_witness :
    run_program (fun k => 600000000 + k * 200000000) (-3) State.initial = State.initial :=
  (run_program_steps (fun k => 600000000 + k * 200000000) (-3) State.initial).2.2.2.2.2.2.1
    (by decide)

/-! ## Memory after a run -/

/-- C7: for every initial `int64_t` memory value `m0` and every finite sequence
`fs` of frequency samples processed in order by `process_frequency`, the final
memory is `m0 + 10 * (number of samples equal to 600) - 5 * (number of samples
equal to 800)` whenever that value fits an `int64_t` (overflow ignored; in
general it is the `int64_t` image of that value); the final memory does not
depend on the order of the samples. -/
theorem final_memory_closed_form (m0 : Int) (fs : List Int) (hm : isInt64 m0) :
    (isInt64 (m0 + 10 * (fs.count 600 : Nat) - 5 * (fs.count 800 : Nat)) →
        (process_all fs m0).memory = m0 + 10 * (fs.count 600 : Nat) - 5 * (fs.count 800 : Nat))
      ∧ (process_all fs m0).memory
          = wrapInt64 (m0 + 10 * (fs.count 600 : Nat) - 5 * (fs.count 800 : Nat))
      ∧ (∀ fs' : List Int, fs.Perm fs' →
          (process_all fs' m0).memory = (process_all fs m0).memory) := by
  refine ⟨?_, process_all_memory_eq fs m0 hm, ?_⟩
  · intro hfit
    rw [process_all_memory_eq fs m0 hm, wrapInt64_of_isInt64 hfit]
  · intro fs' hp
    rw [process_all_memory_eq fs m0 hm, process_all_memory_eq fs' m0 hm,
      hp.count_eq 600, hp.count_eq 800]

/-- Witness for C7: from memory 3, two adds, one subtract and a start, in two
different orders. -/
theorem final_memory_closed_form_witness :
    isInt64 3
      ∧ (process_all [600, 800, 200, 600] 3).memory = 3 + 10 * 2 - 5 * 1
      ∧ (process_all [800, 600, 600, 200] 3).memory
          = (process_all [600, 800, 200, 600] 3).memory :=
  have h := final_memory_closed_form 3 [600, 800, 200, 600] (by decide)
  ⟨by decide, h.1 (by decide), h.2.2 [800, 600, 600, 200] (by decide)⟩

/-- Counterexample to C8 as stated: after 922337203685477581 add samples from
memory 0 the sum `10 n` exceeds `INT64_MAX`; the memory is then
-9223372036854775806, below `-5 n`. -/
theorem memory_bound_fails_after_overflow :
    (process_all (List.replicate 922337203685477581 600) 0).memory = -9223372036854775806
      ∧ ¬ (-5 * ((List.replicate 922337203685477581 (600 : Int)).length : Int)
            ≤ (process_all (List.replicate 922337203685477581 600) 0).memory) := by
  have h0 : isInt64 0 := by decide
  rw [process_all_memory_eq _ 0 h0, List.count_replicate_self, List.count_replicate,
    List.length_replicate, if_neg (by decide)]
  unfold wrapInt64
  decide

/-- C8 (amended): starting from memory 0, after any `n ≤ 922337203685477580`
dispatch steps with arbitrary frequency samples, the memory `m` satisfies
`-5 n ≤ m ≤ 10 n`, and before each of these steps both `memory + 10` and
`memory - 5` fit an `int64_t`; hence during the 10-iteration run of `main` the
memory stays within `[-50, 100]` and the 64-bit additions and subtractions
never overflow; the bounds hold after `run_program(n)` for every `int` `n ≥ 0`. -/
theorem memory_bounds (fs : List Int) (hn : fs.length ≤ 922337203685477580) :
    (-5 * (fs.length : Int) ≤ (process_all fs 0).memory
        ∧ (process_all fs 0).memory ≤ 10 * (fs.length : Int))
      ∧ (∀ (before : List Int) (f : Int) (later : List Int), fs = before ++ f :: later →
          isInt64 ((process_all before 0).memory + 10)
            ∧ isInt64 ((process_all before 0).memory - 5))
      ∧ (fs.length ≤ 10 →
          -50 ≤ (process_all fs 0).memory ∧ (process_all fs 0).memory ≤ 100)
      ∧ (∀ (clock : Nat → Nat) (k : Nat), k ≤ 10 →
          -50 ≤ ((loop_body clock)^[k] State.initial).memory
            ∧ ((loop_body clock)^[k] State.initial).memory ≤ 100
            ∧ isInt64 (((loop_body clock)^[k] State.initial).memory + 10)
            ∧ isInt64 (((loop_body clock)^[k] State.initial).memory - 5))
      ∧ (∀ clock : Nat → Nat, -50 ≤ (main clock).memory ∧ (main clock).memory ≤ 100)
      ∧ (∀ (clock : Nat → Nat) (n : Int), 0 ≤ n → n ≤ INT_MAX →
          -5 * n ≤ (run_program clock n State.initial).memory
            ∧ (run_program clock n State.initial).memory ≤ 10 * n) := by
  have hfit : 10 * (fs.length : Int) ≤ INT64_MAX := by unfold INT64_MAX; omega
  have hb := process_all_zero_exact fs hfit
  have hiter : ∀ (clock : Nat → Nat) (k : Nat), k ≤ 2147483647 →
      -5 * (k : Int) ≤ ((loop_body clock)^[k] State.initial).memory
        ∧ ((loop_body clock)^[k] State.initial).memory ≤ 10 * (k : Int) := by
    intro clock k hk
    have hlen := length_clock_frequencies clock k State.initial.reads
    have hk' := process_all_zero_exact (clock_frequencies clock State.initial.reads k)
      (by rw [hlen]; unfold INT64_MAX; omega)
    rw [hlen] at hk'
    rw [(iterate_loop_body clock k State.initial).2.2.1]
    have hz : State.initial.memory = 0 := rfl
    rw [hz]
    exact hk'.2
  have hrun : ∀ (clock : Nat → Nat) (k : Nat), k ≤ 10 →
      -50 ≤ ((loop_body clock)^[k] State.initial).memory
        ∧ ((loop_body clock)^[k] State.initial).memory ≤ 100 := by
    intro clock k hk
    have h := hiter clock k (by omega)
    omega
  refine ⟨⟨hb.2.1, hb.2.2⟩, ?_, ?_, ?_, ?_, ?_⟩
  · intro before f later hsplit
    have hlen : before.length < fs.length := by
      rw [hsplit, List.length_append, List.length_cons]; omega
    have hp := process_all_zero_exact before (by unfold INT64_MAX; omega)
    unfold isInt64 INT64_MIN INT64_MAX
    omega
  · intro h10
    omega
  · intro clock k hk
    have h := hrun clock k hk
    unfold isInt64 INT64_MIN INT64_MAX
    omega
  · intro clock
    have h := hrun clock 10 (le_refl 10)
    have hmain : main clock = (loop_body clock)^[10] State.initial := by
      unfold main run_program
      exact run_loop_eq_iterate clock 10 10 0 State.initial rfl
    rw [hmain]
    exact h
  · intro clock n h0 hmax
    unfold INT_MAX at hmax
    have h := hiter clock n.toNat (by omega)
    have hcast : (n.toNat : Int) = n := Int.toNat_of_nonneg h0
    rw [hcast] at h
    unfold run_program
    rw [run_loop_eq_iterate clock n n.toNat 0 State.initial (by simp)]
    exact h

/-- Witness for C8 (amended): three samples, and ten iterations over a clock
that advances 1.2 s per reading. -/
theorem memory_bounds_witness :
    (-5 * 3 ≤ (process_all [600, 800, 7] 0).memory
        ∧ (process_all [600, 800, 7] 0).memory ≤ 10 * 3)
      ∧ (isInt64 ((process_all [600] 0).memory + 10)
          ∧ isInt64 ((process_all [600] 0).memory - 5))
      ∧ (-50 ≤ (process_all [600, 800, 7] 0).memory
          ∧ (process_all [600, 800, 7] 0).memory ≤ 100)
      ∧ (-50 ≤ (main (fun k => 600000000 + k * 1200000000)).memory
          ∧ (main (fun k => 600000000 + k * 1200000000)).memory ≤ 100) :=
  have h := memory_bounds [600, 800, 7] (by decide)
  ⟨h.1, h.2.1 [600] 800 [7] rfl, h.2.2.1 (by decide),
    h.2.2.2.2.1 (fun k => 600000000 + k * 1200000000)⟩

/-! ## Divisibility of the memory by five -/

/-- Unfolding of `no_overflow` at a non-empty sequence. -/
theorem no_overflow_cons (f : Int) (rest : List Int) (m : Int) :
    no_overflow (f :: rest) m = true ↔
      ((f = 600 → isInt64 (m + 10)) ∧ (f = 800 → isInt64 (m - 5)))
        ∧ no_overflow rest (process_frequency f m).memory = true := by
  rw [no_overflow, Bool.and_eq_true, decide_eq_true_eq]
  rfl

/-- One dispatch without overflow keeps an `int64_t` multiple of five one. -/
theorem process_frequency_dvd (f m : Int) (hm : isInt64 m) (h5 : 5 ∣ m)
    (hadd : f = 600 → isInt64 (m + 10)) (hsub : f = 800 → isInt64 (m - 5)) :
    isInt64 (process_frequency f m).memory ∧ 5 ∣ (process_frequency f m).memory := by
  rw [process_frequency_memory]
  by_cases h6 : f = 600
  · rw [if_pos h6, wrapInt64_of_isInt64 (hadd h6)]
    exact ⟨hadd h6, by omega⟩
  · by_cases h8 : f = 800
    · rw [if_neg h6, if_pos h8, wrapInt64_of_isInt64 (hsub h8)]
      exact ⟨hsub h8, by omega⟩
    · rw [if_neg h6, if_neg h8]
      exact ⟨hm, h5⟩

/-- Dispatches without overflow keep an `int64_t` multiple of five one. -/
theorem process_all_dvd (fs : List Int) :
    ∀ m : Int, isInt64 m → 5 ∣ m → no_overflow fs m = true →
      5 ∣ (process_all fs m).memory := by
  induction fs with
  | nil =>
    intro m _ h5 _
    rw [process_all_nil]
    exact h5
  | cons f rest ih =>
    intro m hm h5 hno
    rw [no_overflow_cons] at hno
    have hstep := process_frequency_dvd f m hm h5 hno.1.1 hno.1.2
    rw [process_all_cons_memory]
    exact ih _ hstep.1 hstep.2 hno.2

/-- From a memory between `-5 k` and `10 k`, a sequence of `n` samples with
`10 (k + n)` within `INT64_MAX` is processed without overflow. -/
theorem no_overflow_of_length (fs : List Int) :
    ∀ (m : Int) (k : Nat), -5 * (k : Int) ≤ m → m ≤ 10 * (k : Int) →
      10 * ((k : Int) + fs.length) ≤ INT64_MAX → no_overflow fs m = true := by
  induction fs with
  | nil =>
    intro m k _ _ _
    rw [no_overflow]
  | cons f rest ih =>
    intro m k hlo hhi hfit
    rw [List.length_cons] at hfit
    unfold INT64_MAX at hfit
    push_cast at hfit
    have hadd : isInt64 (m + 10) := by
      unfold isInt64 INT64_MIN INT64_MAX; omega
    have hsub : isInt64 (m - 5) := by
      unfold isInt64 INT64_MIN INT64_MAX; omega
    rw [no_overflow_cons]
    refine ⟨⟨fun _ => hadd, fun _ => hsub⟩, ?_⟩
    apply ih _ (k + 1)
    · rw [process_frequency_memory]
      split_ifs
      · rw [wrapInt64_of_isInt64 hadd]; push_cast; omega
      · rw [wrapInt64_of_isInt64 hsub]; push_cast; omega
      · push_cast; omega
    · rw [process_frequency_memory]
      split_ifs
      · rw [wrapInt64_of_isInt64 hadd]; push_cast; omega
      · rw [wrapInt64_of_isInt64 hsub]; push_cast; omega
      · push_cast; omega
    · unfold INT64_MAX
      push_cast
      omega


/-- Counterexample to C11 as stated: 922337203685477580 add steps from memory 0
reach memory 9223372036854775800 without overflow; one more add step leaves
-9223372036854775806, which is not a multiple of 5. -/
theorem memory_not_multiple_of_five_after_overflow :
    no_overflow (List.replicate 922337203685477580 600) 0 = true
      ∧ (process_all (List.replicate 922337203685477580 600) 0).memory = 9223372036854775800
      ∧ (process_frequency 600 9223372036854775800).memory = -9223372036854775806
      ∧ (process_all (List.replicate 922337203685477581 600) 0).memory = -9223372036854775806
      ∧ ¬ (5 ∣ (process_all (List.replicate 922337203685477581 600) 0).memory) := by
  have h0 : isInt64 0 := by decide
  have hfit : 10 * (((List.replicate 922337203685477580 (600 : Int)).length : Nat) : Int)
      ≤ INT64_MAX := by
    rw [List.length_replicate]
    decide
  have hlast : (process_all (List.replicate 922337203685477581 600) 0).memory
      = -9223372036854775806 := by
    rw [process_all_memory_eq _ 0 h0, List.count_replicate_self, List.count_replicate,
      if_neg (by decide)]
    unfold wrapInt64
    decide
  refine ⟨?_, ?_, ?_, hlast, ?_⟩
  · apply no_overflow_of_length _ 0 0 (by decide) (by decide)
    rw [List.length_replicate]
    decide
  · rw [(process_all_zero_exact _ hfit).1, List.count_replicate_self, List.count_replicate,
      if_neg (by decide)]
    decide
  · with_unfolding_all decide
  · rw [hlast]
    decide

/-- C11 (amended): in every state reached from the initial state memory = 0 by
a finite sequence of `process_frequency` steps with arbitrary frequency
arguments none of which overflows the `int64_t` register, memory is an integer
multiple of 5.  No step overflows in a sequence of at most 922337203685477580
steps; so the memory is a multiple of 5 after `run_program(n)` from the initial
state for every `int` `n`, and at the end of `main`. -/
theorem memory_multiple_of_five (fs : List Int) :
    (no_overflow fs 0 = true → 5 ∣ (process_all fs 0).memory)
      ∧ (fs.length ≤ 922337203685477580 →
          no_overflow fs 0 = true ∧ 5 ∣ (process_all fs 0).memory)
      ∧ (∀ (clock : Nat → Nat) (n : Int), n ≤ INT_MAX →
          5 ∣ (run_program clock n State.initial).memory)
      ∧ (∀ clock : Nat → Nat, 5 ∣ (main clock).memory) := by
  have h0 : isInt64 0 := by decide
  have hlen : ∀ gs : List Int, gs.length ≤ 922337203685477580 →
      no_overflow gs 0 = true ∧ 5 ∣ (process_all gs 0).memory := by
    intro gs hgs
    have hno : no_overflow gs 0 = true :=
      no_overflow_of_length gs 0 0 (by decide) (by decide)
        (by unfold INT64_MAX; push_cast; omega)
    exact ⟨hno, process_all_dvd gs 0 h0 (dvd_zero 5) hno⟩
  have hiter : ∀ (clock : Nat → Nat) (k : Nat), k ≤ 2147483647 →
      5 ∣ ((loop_body clock)^[k] State.initial).memory := by
    intro clock k hk
    have hl := length_clock_frequencies clock k State.initial.reads
    rw [(iterate_loop_body clock k State.initial).2.2.1]
    have hz : State.initial.memory = 0 := rfl
    rw [hz]
    exact (hlen _ (by rw [hl]; omega)).2
  have hrun : ∀ (clock : Nat → Nat) (n : Int), n ≤ INT_MAX →
      5 ∣ (run_program clock n State.initial).memory := by
    intro clock n hn
    unfold INT_MAX at hn
    unfold run_program
    rw [run_loop_eq_iterate clock n n.toNat 0 State.initial (by simp)]
    exact hiter clock n.toNat (by omega)
  refine ⟨process_all_dvd fs 0 h0 (dvd_zero 5), hlen fs, hrun, ?_⟩
  intro clock
  unfold main
  exact hrun clock 10 (by decide)

/-- Witness for C11 (amended): two adds, a subtract and an unrecognized sample
leave memory 15; ten iterations over a clock that advances 1.2 s per reading
leave a multiple of 5. -/
theorem memory_multiple_of_five_witness :
    no_overflow [600, 800, 7, 600] 0 = true
      ∧ 5 ∣ (process_all [600, 800, 7, 600] 0).memory
      ∧ 5 ∣ (run_program (fun k => 600000000 + k * 1200000000) 3 State.initial).memory
      ∧ 5 ∣ (main (fun k => 600000000 + k * 1200000000)).memory :=
  have h := memory_multiple_of_five [600, 800, 7, 600]
  ⟨(h.2.1 (by decide)).1, h.1 (h.2.1 (by decide)).1,
    h.2.2.1 (fun k => 600000000 + k * 1200000000) 3 (by decide),
    h.2.2.2 (fun k => 600000000 + k * 1200000000)⟩

end Qawale
